import Mathlib

/-!
Verification of the preset rename history of OrcaSlicer
(src/libslic3r/PresetRenameHistory.{hpp,cpp}).

The store keeps an ordered list of rename records, appends validated
records with `add_entry`, resolves a name through the recorded rename
chain with `resolve` (bounded by `kMaxResolveDepth` hops and a visited
set), and mirrors the list to disk via `save`/`load`.  File and JSON
I/O are modelled at the level of the list of raw serialized entries.
-/

namespace Slic3r

/-- `Preset::Type`, restricted to the values this component handles.
`TYPE_INVALID` is the sentinel; `type_from_string` maps unknown tokens
to it and `type_to_string` maps it to "unknown". -/
inductive PresetType where
  | TYPE_INVALID
  | TYPE_PRINTER
  | TYPE_FILAMENT
deriving DecidableEq, Repr

/-- `RenameHistoryEntry` from PresetRenameHistory.hpp: one rename record. -/
structure RenameHistoryEntry where
  type : PresetType
  old_name : String
  new_name : String
  timestamp : Int
deriving DecidableEq, Repr

/-- The in-memory sequence `m_entries`, insertion order preserved. -/
abbrev History := List RenameHistoryEntry

/-- `kMaxResolveDepth` from PresetRenameHistory.cpp. -/
def kMaxResolveDepth : Nat := 32

/-- `PresetRenameHistory::add_entry`: guard against invalid input, then
append a record carrying the wall-clock timestamp `now` (passed
explicitly here since the clock is ambient in the source) and persist.
Persistence does not change the in-memory list, so the model returns
the new list. -/
def add_entry (h : History) (type : PresetType) (old_name new_name : String)
    (now : Int) : History :=
  if type = .TYPE_INVALID ∨ old_name = "" ∨ new_name = "" ∨ old_name = new_name then
    h
  else
    h ++ [⟨type, old_name, new_name, now⟩]

/-- The reverse search of one resolve hop:
`std::find_if(m_entries.rbegin(), m_entries.rend(), ...)` with the
predicate `entry.type == type && entry.old_name == current`. -/
def findLatest (h : History) (type : PresetType) (current : String) :
    Option RenameHistoryEntry :=
  h.reverse.find? (fun e => e.type == type && e.old_name == current)

/-- The `for (size_t depth = 0; depth < kMaxResolveDepth; ++depth)` loop
body of `PresetRenameHistory::resolve`, as fuel recursion.  State:
`current`, the visited set (a list, standing for the `unordered_set`),
and the `changed` flag.  Returns the final `current` and `changed`. -/
def resolveLoop (h : History) (type : PresetType) :
    Nat → String → List String → Bool → String × Bool
  | 0, current, _, changed => (current, changed)
  | fuel + 1, current, visited, changed =>
    match findLatest h type current with
    | none => (current, changed)
    | some e =>
      if e.new_name ∈ visited then
        (e.new_name, changed)
      else
        resolveLoop h type fuel e.new_name (e.new_name :: visited) true

/-- `PresetRenameHistory::resolve`: guard, run the hop loop seeded with
`visited = {name}`, and return the final name only if at least one hop
succeeded and the result differs from the input. -/
def resolve (h : History) (type : PresetType) (name : String) : Option String :=
  if type = .TYPE_INVALID ∨ name = "" then
    none
  else
    let r := resolveLoop h type kMaxResolveDepth name [name] false
    if r.2 = true ∧ r.1 ≠ name then some r.1 else none

/-- `PresetRenameHistory::type_to_string`. -/
def type_to_string : PresetType → String
  | .TYPE_PRINTER => "printer"
  | .TYPE_FILAMENT => "filament"
  | _ => "unknown"

/-- `PresetRenameHistory::type_from_string`. -/
def type_from_string (s : String) : PresetType :=
  if s = "printer" then .TYPE_PRINTER
  else if s = "filament" then .TYPE_FILAMENT
  else .TYPE_INVALID

/-- One element of the persisted "entries" JSON array, with the fields
`save` writes and `load` reads. -/
structure RawEntry where
  type : String
  old : String
  new : String
  timestamp : Int
deriving DecidableEq, Repr

/-- `PresetRenameHistory::save`, modelled at the level of the serialized
"entries" array it writes. -/
def save (h : History) : List RawEntry :=
  h.map (fun e => ⟨type_to_string e.type, e.old_name, e.new_name, e.timestamp⟩)

/-- `PresetRenameHistory::load`, modelled on the parsed "entries" array:
each element is turned into a record via `type_from_string` and skipped
when the type is the invalid sentinel or either name is empty. -/
def load (raws : List RawEntry) : History :=
  raws.filterMap (fun r =>
    let e : RenameHistoryEntry := ⟨type_from_string r.type, r.old, r.new, r.timestamp⟩
    if e.type = .TYPE_INVALID ∨ e.old_name = "" ∨ e.new_name = "" then none
    else some e)

/-- The record invariant stated by the spec: valid type, non-empty old
and new names, old and new names distinct. -/
def Invariant (e : RenameHistoryEntry) : Prop :=
  e.type ≠ .TYPE_INVALID ∧ e.old_name ≠ "" ∧ e.new_name ≠ "" ∧ e.old_name ≠ e.new_name

instance (e : RenameHistoryEntry) : Decidable (Invariant e) := by
  unfold Invariant; infer_instance

/-- The name reached from `s` after exactly `k` successful resolve hops
(each hop following `findLatest`); `none` if the chain runs out before
`k` hops. -/
def hopN (h : History) (t : PresetType) : Nat → String → Option String
  | 0, s => some s
  | k + 1, s =>
    match findLatest h t s with
    | none => none
    | some e => hopN h t k e.new_name

/-- The i-th name of the synthetic rename chain used to exercise the hop
bound. -/
def chainName (i : Nat) : String := "N" ++ toString i

/-- A synthetic history of `k` printer renames N0 → N1 → ... → Nk. -/
def chain (k : Nat) : History :=
  (List.range k).map (fun i => ⟨.TYPE_PRINTER, chainName i, chainName (i + 1), 0⟩)

/-! ### Helper lemmas -/

/-- One unfolding step of the resolve loop. -/
theorem resolveLoop_succ (h : History) (t : PresetType) (fuel : Nat) (cur : String)
    (vis : List String) (ch : Bool) :
    resolveLoop h t (fuel + 1) cur vis ch =
      match findLatest h t cur with
      | none => (cur, ch)
      | some e =>
        if e.new_name ∈ vis then (e.new_name, ch)
        else resolveLoop h t fuel e.new_name (e.new_name :: vis) true := rfl

/-- An entry appended at the end whose type and old name match is the one
the reverse scan finds first. -/
theorem findLatest_append_self (h : History) (t : PresetType) (c : String)
    (e : RenameHistoryEntry) (het : e.type = t) (heo : e.old_name = c) :
    findLatest (h ++ [e]) t c = some e := by
  unfold findLatest
  rw [List.reverse_append]
  simp [het, heo]

/-- Appending an entry of a different type does not change the reverse
scan for type `q`. -/
theorem findLatest_append_of_type_ne (h : History) (q : PresetType)
    (e : RenameHistoryEntry) (c : String) (hne : e.type ≠ q) :
    findLatest (h ++ [e]) q c = findLatest h q c := by
  unfold findLatest
  rw [List.reverse_append]
  simp [hne]

/-- The reverse scan fails exactly when no entry matches. -/
theorem findLatest_eq_none_iff (h : History) (t : PresetType) (c : String) :
    findLatest h t c = none ↔ ∀ e ∈ h, ¬(e.type = t ∧ e.old_name = c) := by
  unfold findLatest
  rw [List.find?_eq_none]
  constructor
  · intro hall e he
    have := hall e (List.mem_reverse.mpr he)
    simpa using this
  · intro hall e he
    have := hall e (List.mem_reverse.mp he)
    simpa using this

/-- A found entry is in the history, has the queried type and has the
current name as its old name. -/
theorem findLatest_mem (h : History) (t : PresetType) (c : String)
    (e : RenameHistoryEntry) (hf : findLatest h t c = some e) :
    e ∈ h ∧ e.type = t ∧ e.old_name = c := by
  unfold findLatest at hf
  have hmem := List.mem_reverse.mp (List.mem_of_find?_eq_some hf)
  have hp := List.find?_some hf
  simp only [Bool.and_eq_true, beq_iff_eq] at hp
  exact ⟨hmem, hp.1, hp.2⟩

/-- Two histories on which every reverse scan agrees produce the same
resolve loop results. -/
theorem resolveLoop_congr (h₁ h₂ : History) (t : PresetType)
    (hagree : ∀ c, findLatest h₁ t c = findLatest h₂ t c) :
    ∀ fuel cur vis ch, resolveLoop h₁ t fuel cur vis ch = resolveLoop h₂ t fuel cur vis ch := by
  intro fuel
  induction fuel with
  | zero => intro cur vis ch; rfl
  | succ n ih =>
    intro cur vis ch
    rw [resolveLoop_succ, resolveLoop_succ, hagree cur]
    cases findLatest h₂ t cur with
    | none => rfl
    | some e =>
      by_cases hv : e.new_name ∈ vis
      · simp [hv]
      · simp [hv, ih]

/-- The resolve loop either leaves the current name untouched or ends on
the `new_name` of some matching entry. -/
theorem resolveLoop_result (h : History) (t : PresetType) :
    ∀ fuel cur vis ch s c, resolveLoop h t fuel cur vis ch = (s, c) →
      (s = cur ∧ c = ch) ∨ ∃ e ∈ h, e.type = t ∧ e.new_name = s := by
  intro fuel
  induction fuel with
  | zero =>
    intro cur vis ch s c hr
    left
    exact ⟨(Prod.mk.injEq .. ▸ hr).1.symm, (Prod.mk.injEq .. ▸ hr).2.symm⟩
  | succ n ih =>
    intro cur vis ch s c hr
    rw [resolveLoop_succ] at hr
    cases hfind : findLatest h t cur with
    | none =>
      simp only [hfind] at hr
      left
      exact ⟨(Prod.mk.injEq .. ▸ hr).1.symm, (Prod.mk.injEq .. ▸ hr).2.symm⟩
    | some e =>
      simp only [hfind] at hr
      obtain ⟨hmem, htype, -⟩ := findLatest_mem h t cur e hfind
      by_cases hv : e.new_name ∈ vis
      · rw [if_pos hv] at hr
        right
        exact ⟨e, hmem, htype, (Prod.mk.injEq .. ▸ hr).1⟩
      · rw [if_neg hv] at hr
        rcases ih _ _ _ _ _ hr with ⟨hs, -⟩ | hex
        · right
          exact ⟨e, hmem, htype, hs.symm⟩
        · right
          exact hex

/-- Whatever the resolve loop returns is reached from the start name in
at most `fuel` hops. -/
theorem resolveLoop_reached (h : History) (t : PresetType) :
    ∀ fuel cur vis ch s c, resolveLoop h t fuel cur vis ch = (s, c) →
      ∃ k ≤ fuel, hopN h t k cur = some s := by
  intro fuel
  induction fuel with
  | zero =>
    intro cur vis ch s c hr
    exact ⟨0, Nat.le_refl 0, by simpa [hopN] using congrArg Prod.fst hr⟩
  | succ n ih =>
    intro cur vis ch s c hr
    rw [resolveLoop_succ] at hr
    cases hfind : findLatest h t cur with
    | none =>
      simp only [hfind] at hr
      exact ⟨0, Nat.zero_le _, by simpa [hopN] using congrArg Prod.fst hr⟩
    | some e =>
      simp only [hfind] at hr
      by_cases hv : e.new_name ∈ vis
      · rw [if_pos hv] at hr
        refine ⟨1, Nat.succ_le_succ (Nat.zero_le _), ?_⟩
        simp [hopN, hfind]
        simpa using congrArg Prod.fst hr
      · rw [if_neg hv] at hr
        obtain ⟨k, hk, hhop⟩ := ih _ _ _ _ _ hr
        exact ⟨k + 1, Nat.succ_le_succ hk, by simp [hopN, hfind, hhop]⟩

end Slic3r

namespace Slic3r

/-! ### Claim C1 -/

/-- C1 counterexample: a persisted element whose old name equals its new
name (type valid, both names non-empty) violates the record invariant
yet is NOT dropped by `load` — `load` only checks the type and
emptiness, not `old_name != new_name`. -/
theorem C1_load_keeps_equal_names :
    load [⟨"printer", "A", "A", 0⟩] = [⟨.TYPE_PRINTER, "A", "A", 0⟩] ∧
    ¬ Invariant ⟨.TYPE_PRINTER, "A", "A", 0⟩ := by
  decide

/-- C1 amended: `add_entry` never constructs a record violating the full
invariant (valid type, non-empty names, old ≠ new): if every record of
the history satisfies it, so does every record after `add_entry`.
`load` drops persisted elements with an invalid type or an empty old or
new name, so every loaded record satisfies those three conditions — but
`load` does not check `old_name != new_name`, so a persisted element
with equal (non-empty) old and new names is retained. -/
theorem C1_invariant_amended (h : History) (t : PresetType) (o n : String)
    (now : Int) (raws : List RawEntry) (hinv : ∀ e ∈ h, Invariant e) :
    (∀ e ∈ add_entry h t o n now, Invariant e) ∧
    (∀ e ∈ load raws, e.type ≠ .TYPE_INVALID ∧ e.old_name ≠ "" ∧ e.new_name ≠ "") := by
  constructor
  · intro e he
    unfold add_entry at he
    by_cases hbad : t = .TYPE_INVALID ∨ o = "" ∨ n = "" ∨ o = n
    · rw [if_pos hbad] at he
      exact hinv e he
    · rw [if_neg hbad] at he
      push_neg at hbad
      rcases List.mem_append.mp he with hmem | hmem
      · exact hinv e hmem
      · rcases List.mem_singleton.mp hmem with rfl
        exact ⟨hbad.1, hbad.2.1, hbad.2.2.1, hbad.2.2.2⟩
  · intro e he
    unfold load at he
    obtain ⟨r, -, hr⟩ := List.mem_filterMap.mp he
    by_cases hbad : type_from_string r.type = PresetType.TYPE_INVALID ∨ r.old = "" ∨ r.new = ""
    · rw [if_pos hbad] at hr
      exact Option.noConfusion hr
    · rw [if_neg hbad] at hr
      rcases Option.some.injEq .. ▸ hr with rfl
      push_neg at hbad
      exact hbad

/-- C1 witness. -/
theorem C1_invariant_amended_witness :
    (∀ e ∈ add_entry [] .TYPE_PRINTER "A" "B" 0, Invariant e) ∧
    (∀ e ∈ load [⟨"printer", "X", "Y", 1⟩],
      e.type ≠ .TYPE_INVALID ∧ e.old_name ≠ "" ∧ e.new_name ≠ "") :=
  C1_invariant_amended [] .TYPE_PRINTER "A" "B" 0 [⟨"printer", "X", "Y", 1⟩]
    (by intro e he; cases he)

/-! ### Claim C2 -/

/-- C2 counterexample: the claim fails for a history that already maps
the new name onward.  With the history containing (Printer, "B" → "C"),
after `add_entry(Printer, "A", "B")` the call `resolve(Printer, "A")`
follows the chain past "B" and returns "C", not "B". -/
theorem C2_resolve_follows_chain :
    resolve (add_entry [⟨.TYPE_PRINTER, "B", "C", 0⟩] .TYPE_PRINTER "A" "B" 1)
      .TYPE_PRINTER "A" = some "C" ∧ ("C" : String) ≠ "B" := by
  constructor
  · decide
  · decide

/-- C2 amended: for every history with no record of the queried type
whose old name is `n`, and every valid input (type not the invalid
sentinel, names non-empty and distinct), immediately after
`add_entry(t, o, n)` the call `resolve(t, o)` returns `n`. -/
theorem C2_add_then_resolve (h : History) (t : PresetType) (o n : String)
    (now : Int) (ht : t ≠ .TYPE_INVALID) (ho : o ≠ "") (hn : n ≠ "")
    (hon : o ≠ n) (hstop : ∀ e ∈ h, ¬(e.type = t ∧ e.old_name = n)) :
    resolve (add_entry h t o n now) t o = some n := by
  have hguard : ¬(t = PresetType.TYPE_INVALID ∨ o = "" ∨ n = "" ∨ o = n) := by
    push_neg
    exact ⟨ht, ho, hn, hon⟩
  have hno : ¬ (n ∈ ([o] : List String)) := by
    simp only [List.mem_singleton]
    exact fun hx => hon hx.symm
  have hfind1 : findLatest (h ++ [⟨t, o, n, now⟩]) t o = some ⟨t, o, n, now⟩ :=
    findLatest_append_self h t o ⟨t, o, n, now⟩ rfl rfl
  have hfind2 : findLatest (h ++ [⟨t, o, n, now⟩]) t n = none := by
    rw [findLatest_eq_none_iff]
    intro x hx
    rcases List.mem_append.mp hx with hmem | hmem
    · exact hstop x hmem
    · rcases List.mem_singleton.mp hmem with rfl
      intro hc
      exact hon hc.2
  have hloop : resolveLoop (h ++ [⟨t, o, n, now⟩]) t kMaxResolveDepth o [o] false
      = (n, true) := by
    rw [show kMaxResolveDepth = 31 + 1 from rfl, resolveLoop_succ]
    simp only [hfind1, hno, if_false, if_neg hno]
    rw [show (31 : Nat) = 30 + 1 from rfl, resolveLoop_succ]
    simp only [hfind2]
  unfold add_entry
  rw [if_neg hguard]
  unfold resolve
  rw [if_neg (by push_neg; exact ⟨ht, ho⟩)]
  simp only [hloop]
  simp [Ne.symm hon]

/-- C2 witness. -/
theorem C2_add_then_resolve_witness :
    resolve (add_entry [] .TYPE_PRINTER "A" "B" 0) .TYPE_PRINTER "A" = some "B" :=
  C2_add_then_resolve [] .TYPE_PRINTER "A" "B" 0 (by decide) (by decide)
    (by decide) (by decide) (by intro e he; cases he)

end Slic3r

namespace Slic3r

/-! ### Claim C3 -/

/-- C3: starting from an empty history, after `add_entry(T, A, B)` then
`add_entry(T, B, A)` for distinct non-empty names, `resolve(T, A)`
returns none — the chain cycles back to the input name, so the net
effect is identity. -/
theorem C3_cycle_resolves_to_none (t : PresetType) (A B : String) (t1 t2 : Int)
    (ht : t ≠ .TYPE_INVALID) (hA : A ≠ "") (hB : B ≠ "") (hAB : A ≠ B) :
    resolve (add_entry (add_entry [] t A B t1) t B A t2) t A = none := by
  have hadd1 : add_entry [] t A B t1 = [⟨t, A, B, t1⟩] := by
    unfold add_entry
    rw [if_neg (by push_neg; exact ⟨ht, hA, hB, hAB⟩)]
    rfl
  have hadd2 : add_entry [⟨t, A, B, t1⟩] t B A t2
      = [⟨t, A, B, t1⟩, ⟨t, B, A, t2⟩] := by
    unfold add_entry
    rw [if_neg (by push_neg; exact ⟨ht, hB, hA, Ne.symm hAB⟩)]
    rfl
  have hf1 : findLatest [⟨t, A, B, t1⟩, ⟨t, B, A, t2⟩] t A = some ⟨t, A, B, t1⟩ := by
    unfold findLatest
    rw [show ([⟨t, A, B, t1⟩, ⟨t, B, A, t2⟩] : History).reverse
        = [⟨t, B, A, t2⟩, ⟨t, A, B, t1⟩] from by simp]
    rw [List.find?_cons_of_neg _ (by simp [Ne.symm hAB]),
      List.find?_cons_of_pos _ (by simp)]
  have hf2 : findLatest [⟨t, A, B, t1⟩, ⟨t, B, A, t2⟩] t B = some ⟨t, B, A, t2⟩ := by
    unfold findLatest
    rw [show ([⟨t, A, B, t1⟩, ⟨t, B, A, t2⟩] : History).reverse
        = [⟨t, B, A, t2⟩, ⟨t, A, B, t1⟩] from by simp]
    rw [List.find?_cons_of_pos _ (by simp)]
  have hloop : resolveLoop [⟨t, A, B, t1⟩, ⟨t, B, A, t2⟩] t kMaxResolveDepth A [A] false
      = (A, true) := by
    rw [show kMaxResolveDepth = 31 + 1 from rfl, resolveLoop_succ]
    simp only [hf1]
    rw [if_neg (by simp only [List.mem_singleton]; exact Ne.symm hAB)]
    rw [show (31 : Nat) = 30 + 1 from rfl, resolveLoop_succ]
    simp only [hf2]
    rw [if_pos (by simp)]
  rw [hadd1, hadd2]
  unfold resolve
  rw [if_neg (by push_neg; exact ⟨ht, hA⟩)]
  simp [hloop]

/-- C3 witness. -/
theorem C3_cycle_resolves_to_none_witness :
    resolve (add_entry (add_entry [] .TYPE_PRINTER "A" "B" 0) .TYPE_PRINTER "B" "A" 1)
      .TYPE_PRINTER "A" = none :=
  C3_cycle_resolves_to_none .TYPE_PRINTER "A" "B" 0 1 (by decide) (by decide)
    (by decide) (by decide)

/-! ### Claim C4 -/

/-- C4: starting from an empty history, after `add_entry(T, A, B)` then
`add_entry(T, B, C)` for pairwise distinct non-empty names,
`resolve(T, A)` returns `C` — resolution follows the rename chain
transitively to the final name. -/
theorem C4_chain_resolves_transitively (t : PresetType) (A B C : String) (t1 t2 : Int)
    (ht : t ≠ .TYPE_INVALID) (hA : A ≠ "") (hB : B ≠ "") (hC : C ≠ "")
    (hAB : A ≠ B) (hBC : B ≠ C) (hAC : A ≠ C) :
    resolve (add_entry (add_entry [] t A B t1) t B C t2) t A = some C := by
  have hadd1 : add_entry [] t A B t1 = [⟨t, A, B, t1⟩] := by
    unfold add_entry
    rw [if_neg (by push_neg; exact ⟨ht, hA, hB, hAB⟩)]
    rfl
  have hadd2 : add_entry [⟨t, A, B, t1⟩] t B C t2
      = [⟨t, A, B, t1⟩, ⟨t, B, C, t2⟩] := by
    unfold add_entry
    rw [if_neg (by push_neg; exact ⟨ht, hB, hC, hBC⟩)]
    rfl
  have hf1 : findLatest [⟨t, A, B, t1⟩, ⟨t, B, C, t2⟩] t A = some ⟨t, A, B, t1⟩ := by
    unfold findLatest
    rw [show ([⟨t, A, B, t1⟩, ⟨t, B, C, t2⟩] : History).reverse
        = [⟨t, B, C, t2⟩, ⟨t, A, B, t1⟩] from by simp]
    rw [List.find?_cons_of_neg _ (by simp [Ne.symm hAB]),
      List.find?_cons_of_pos _ (by simp)]
  have hf2 : findLatest [⟨t, A, B, t1⟩, ⟨t, B, C, t2⟩] t B = some ⟨t, B, C, t2⟩ := by
    unfold findLatest
    rw [show ([⟨t, A, B, t1⟩, ⟨t, B, C, t2⟩] : History).reverse
        = [⟨t, B, C, t2⟩, ⟨t, A, B, t1⟩] from by simp]
    rw [List.find?_cons_of_pos _ (by simp)]
  have hf3 : findLatest [⟨t, A, B, t1⟩, ⟨t, B, C, t2⟩] t C = none := by
    rw [findLatest_eq_none_iff]
    intro x hx
    simp only [List.mem_cons, List.not_mem_nil, or_false] at hx
    rcases hx with rfl | rfl
    · intro hc
      exact hAC hc.2
    · intro hc
      exact hBC hc.2
  have hloop : resolveLoop [⟨t, A, B, t1⟩, ⟨t, B, C, t2⟩] t kMaxResolveDepth A [A] false
      = (C, true) := by
    rw [show kMaxResolveDepth = 31 + 1 from rfl, resolveLoop_succ]
    simp only [hf1]
    rw [if_neg (by simp only [List.mem_singleton]; exact Ne.symm hAB)]
    rw [show (31 : Nat) = 30 + 1 from rfl, resolveLoop_succ]
    simp only [hf2]
    rw [if_neg (by
      simp only [List.mem_cons, List.mem_singleton, List.not_mem_nil, or_false]
      push_neg
      exact ⟨Ne.symm hBC, Ne.symm hAC⟩)]
    rw [show (30 : Nat) = 29 + 1 from rfl, resolveLoop_succ]
    simp only [hf3]
  rw [hadd1, hadd2]
  unfold resolve
  rw [if_neg (by push_neg; exact ⟨ht, hA⟩)]
  simp [hloop, Ne.symm hAC]

/-- C4 witness. -/
theorem C4_chain_resolves_transitively_witness :
    resolve (add_entry (add_entry [] .TYPE_PRINTER "A" "B" 0) .TYPE_PRINTER "B" "C" 1)
      .TYPE_PRINTER "A" = some "C" :=
  C4_chain_resolves_transitively .TYPE_PRINTER "A" "B" "C" 0 1 (by decide) (by decide)
    (by decide) (by decide) (by decide) (by decide) (by decide)

end Slic3r

namespace Slic3r

/-- Persistence type tokens round-trip for valid types. -/
theorem type_round_trip (t : PresetType) (ht : t ≠ .TYPE_INVALID) :
    type_from_string (type_to_string t) = t := by
  cases t with
  | TYPE_INVALID => exact absurd rfl ht
  | TYPE_PRINTER => decide
  | TYPE_FILAMENT => decide

/-- `resolve` past its guard, with the loop result exposed. -/
theorem resolve_of_valid (h : History) (t : PresetType) (name : String)
    (hg : ¬(t = PresetType.TYPE_INVALID ∨ name = "")) :
    resolve h t name =
      if (resolveLoop h t kMaxResolveDepth name [name] false).2 = true ∧
          (resolveLoop h t kMaxResolveDepth name [name] false).1 ≠ name then
        some (resolveLoop h t kMaxResolveDepth name [name] false).1
      else none := by
  unfold resolve
  rw [if_neg hg]

/-! ### Claim C5 -/

/-- C5: resolution always stops within the fixed hop limit: whenever
`resolve` returns a name, that name is reached from the input by at
most `kMaxResolveDepth` (= 32) successful hops along the history. The
witness instantiates this on a synthetic chain of 40 renames, where
resolution stops after exactly 32 hops. -/
theorem C5_hop_bound (h : History) (t : PresetType) (n s : String)
    (hres : resolve h t n = some s) :
    ∃ k ≤ kMaxResolveDepth, hopN h t k n = some s := by
  by_cases hg : t = PresetType.TYPE_INVALID ∨ n = ""
  · unfold resolve at hres
    rw [if_pos hg] at hres
    exact Option.noConfusion hres
  · rw [resolve_of_valid h t n hg] at hres
    by_cases hc : (resolveLoop h t kMaxResolveDepth n [n] false).2 = true ∧
        (resolveLoop h t kMaxResolveDepth n [n] false).1 ≠ n
    · rw [if_pos hc] at hres
      obtain rfl : (resolveLoop h t kMaxResolveDepth n [n] false).1 = s :=
        Option.some.inj hres
      exact resolveLoop_reached h t kMaxResolveDepth n [n] false _ _ rfl
    · rw [if_neg hc] at hres
      exact Option.noConfusion hres

/-- C5 witness: a 40-link chain N0 → N1 → ... → N40 is longer than the
hop limit; resolution stops at N32, the name reached after exactly 32
hops. -/
theorem C5_hop_bound_witness :
    ∃ k ≤ kMaxResolveDepth, hopN (chain 40) .TYPE_PRINTER k (chainName 0)
      = some (chainName 32) :=
  C5_hop_bound (chain 40) .TYPE_PRINTER (chainName 0) (chainName 32) (by decide)

/-! ### Claim C6 -/

/-- C6: the reverse scan of a resolve hop selects exactly the most
recently inserted matching record — `findLatest` returns `e` iff `e`
matches and every record inserted after it (the suffix `h₂`) does not
match; hence after `add_entry(T, "A", "B")` then `add_entry(T, "A", "C")`
on an empty history, `resolve(T, "A")` returns `"C"`. -/
theorem C6_latest_insertion_precedence (h : History) (t : PresetType) (c : String)
    (e : RenameHistoryEntry) :
    (findLatest h t c = some e ↔
      (e.type = t ∧ e.old_name = c ∧
        ∃ h₁ h₂, h = h₁ ++ e :: h₂ ∧ ∀ x ∈ h₂, ¬(x.type = t ∧ x.old_name = c))) ∧
    resolve (add_entry (add_entry [] .TYPE_PRINTER "A" "B" 0) .TYPE_PRINTER "A" "C" 1)
      .TYPE_PRINTER "A" = some "C" := by
  constructor
  · unfold findLatest
    rw [List.find?_eq_some]
    constructor
    · rintro ⟨hp, as, bs, hsplit, has⟩
      simp only [Bool.and_eq_true, beq_iff_eq] at hp
      refine ⟨hp.1, hp.2, bs.reverse, as.reverse, ?_, ?_⟩
      · have hrev := congrArg List.reverse hsplit
        simp only [List.reverse_reverse] at hrev
        rw [hrev]
        simp
      · intro x hx
        have hx' := has x (List.mem_reverse.mp hx)
        intro hcon
        rw [hcon.1, hcon.2] at hx'
        simp at hx'
    · rintro ⟨het, heo, h₁, h₂, rfl, hnone⟩
      refine ⟨by simp [het, heo], h₂.reverse, h₁.reverse, by simp, ?_⟩
      intro x hx
      have hx' := hnone x (List.mem_reverse.mp hx)
      by_cases h1 : x.type = t
      · by_cases h2 : x.old_name = c
        · exact absurd ⟨h1, h2⟩ hx'
        · simp [h2]
      · simp [h1]
  · decide

/-! ### Claim C7 -/

/-- C7: for a history of well-formed records (valid type, non-empty old
and new names), `save` followed by `load` reproduces the in-memory
sequence exactly, order and all fields included. -/
theorem C7_save_load_round_trip (h : History)
    (hwf : ∀ e ∈ h, e.type ≠ .TYPE_INVALID ∧ e.old_name ≠ "" ∧ e.new_name ≠ "") :
    load (save h) = h := by
  induction h with
  | nil => rfl
  | cons e rest ih =>
    obtain ⟨ht, ho, hn⟩ := hwf e (List.mem_cons_self e rest)
    have ihx := ih (fun x hx => hwf x (List.mem_cons_of_mem e hx))
    unfold save load at ihx ⊢
    simp only [List.map_cons, List.filterMap_cons]
    simp [type_round_trip e.type ht, ht, ho, hn, ihx]

/-- C7 witness. -/
theorem C7_save_load_round_trip_witness :
    load (save [⟨.TYPE_PRINTER, "A", "B", 5⟩, ⟨.TYPE_FILAMENT, "X", "Y", 7⟩])
      = [⟨.TYPE_PRINTER, "A", "B", 5⟩, ⟨.TYPE_FILAMENT, "X", "Y", 7⟩] :=
  C7_save_load_round_trip [⟨.TYPE_PRINTER, "A", "B", 5⟩, ⟨.TYPE_FILAMENT, "X", "Y", 7⟩]
    (by decide)

/-! ### Claim C8 -/

/-- C8: `add_entry` with any invalid input (invalid type, empty old or
new name, or equal names) is a silent no-op: the sequence is unchanged
and in particular its length is unchanged. -/
theorem C8_invalid_input_noop (h : History) (t : PresetType) (o n : String)
    (now : Int) (hbad : t = .TYPE_INVALID ∨ o = "" ∨ n = "" ∨ o = n) :
    add_entry h t o n now = h ∧ (add_entry h t o n now).length = h.length := by
  have heq : add_entry h t o n now = h := by
    unfold add_entry
    rw [if_pos hbad]
  exact ⟨heq, by rw [heq]⟩

/-- C8 witness: equal old and new names on a non-empty history. -/
theorem C8_invalid_input_noop_witness :
    add_entry [⟨.TYPE_PRINTER, "X", "Y", 0⟩] .TYPE_PRINTER "A" "A" 1
        = [⟨.TYPE_PRINTER, "X", "Y", 0⟩] ∧
      (add_entry [⟨.TYPE_PRINTER, "X", "Y", 0⟩] .TYPE_PRINTER "A" "A" 1).length
        = [(⟨.TYPE_PRINTER, "X", "Y", 0⟩ : RenameHistoryEntry)].length :=
  C8_invalid_input_noop [⟨.TYPE_PRINTER, "X", "Y", 0⟩] .TYPE_PRINTER "A" "A" 1
    (by decide)

/-! ### Claim C9 -/

/-- C9: type isolation — appending a record of one type (whether or not
the append passes its guard) never changes resolution for a different
type, because each hop only consults records of the queried type. -/
theorem C9_type_isolation (h : History) (t q : PresetType) (o n nm : String)
    (now : Int) (htq : t ≠ q) :
    resolve (add_entry h t o n now) q nm = resolve h q nm := by
  by_cases hbad : t = PresetType.TYPE_INVALID ∨ o = "" ∨ n = "" ∨ o = n
  · unfold add_entry
    rw [if_pos hbad]
  · unfold add_entry
    rw [if_neg hbad]
    have hagree : ∀ c, findLatest (h ++ [⟨t, o, n, now⟩]) q c = findLatest h q c :=
      fun c => findLatest_append_of_type_ne h q ⟨t, o, n, now⟩ c htq
    by_cases hg : q = PresetType.TYPE_INVALID ∨ nm = ""
    · unfold resolve
      rw [if_pos hg, if_pos hg]
    · rw [resolve_of_valid _ q nm hg, resolve_of_valid h q nm hg,
        resolveLoop_congr _ h q hagree]

/-- C9 witness: a printer rename does not affect filament resolution. -/
theorem C9_type_isolation_witness :
    resolve (add_entry [] .TYPE_PRINTER "A" "B" 0) .TYPE_FILAMENT "A"
      = resolve [] .TYPE_FILAMENT "A" :=
  C9_type_isolation [] .TYPE_PRINTER .TYPE_FILAMENT "A" "B" "A" 0 (by decide)

/-! ### Claim C10 -/

/-- C10: whenever `resolve` returns a name `s` on a history whose
records all carry non-empty new names (the invariant both `load` and
`add_entry` establish), `s` differs from the queried name, is
non-empty, and is the `new_name` of some record of the queried type in
the history. -/
theorem C10_resolve_result_sound (h : History) (t : PresetType) (n s : String)
    (hne : ∀ e ∈ h, e.new_name ≠ "") (hres : resolve h t n = some s) :
    s ≠ n ∧ s ≠ "" ∧ ∃ e ∈ h, e.type = t ∧ e.new_name = s := by
  by_cases hg : t = PresetType.TYPE_INVALID ∨ n = ""
  · unfold resolve at hres
    rw [if_pos hg] at hres
    exact Option.noConfusion hres
  · rw [resolve_of_valid h t n hg] at hres
    by_cases hc : (resolveLoop h t kMaxResolveDepth n [n] false).2 = true ∧
        (resolveLoop h t kMaxResolveDepth n [n] false).1 ≠ n
    · rw [if_pos hc] at hres
      obtain rfl : (resolveLoop h t kMaxResolveDepth n [n] false).1 = s :=
        Option.some.inj hres
      rcases resolveLoop_result h t kMaxResolveDepth n [n] false _ _ rfl with
        ⟨hs, -⟩ | ⟨e, hmem, htype, hnew⟩
      · exact absurd hs hc.2
      · exact ⟨hc.2, hnew ▸ hne e hmem, e, hmem, htype, hnew⟩
    · rw [if_neg hc] at hres
      exact Option.noConfusion hres

/-- C10 witness. -/
theorem C10_resolve_result_sound_witness :
    ("B" : String) ≠ "A" ∧ ("B" : String) ≠ "" ∧
      ∃ e ∈ ([⟨.TYPE_PRINTER, "A", "B", 0⟩] : History),
        e.type = .TYPE_PRINTER ∧ e.new_name = "B" :=
  C10_resolve_result_sound [⟨.TYPE_PRINTER, "A", "B", 0⟩] .TYPE_PRINTER "A" "B"
    (by decide) (by decide)

end Slic3r
